import Mathlib

/-!
Verification of the `usvg-parser` SVG ingestion and attribute-grammar core
(`crates/usvg-parser/src/font.rs` and `crates/usvg-parser/src/lib.rs`).

The font-family grammar of `font.rs` is embedded directly from the source.
The `Stream` cursor it is built on lives in `stream.rs`, which is not part
of the provided sources; its operations are modelled from the specification
(§4.1 Stream Cursor).  External collaborators (the `flate2` inflater, the
standard library's UTF-8 validation, the XML parser) are abstracted as
function parameters, exactly as the spec treats them.
-/

namespace Usvg

/-- Modelled from the spec: the external `roxmltree::Error` carried by
`Error::ParsingFailed`, abstracted to its display text. -/
structure XmlError where
  msg : String
deriving DecidableEq

/-- The error taxonomy of `lib.rs` lines 53-113.  `InvalidChar` carries a
byte vector (first byte actual, rest expected) and `InvalidString` a string
vector (first string actual, rest expected), each with a position. -/
inductive Error where
  | NotAnUtf8Str
  | MalformedGZip
  | ElementsLimitReached
  | InvalidSize
  | UnexpectedEndOfStream
  | UnexpectedData (pos : Nat)
  | InvalidValue
  | InvalidIdent
  | InvalidChar (chars : List Nat) (pos : Nat)
  | InvalidString (strings : List String) (pos : Nat)
  | InvalidNumber (pos : Nat)
  | ParsingFailed (e : XmlError)
deriving DecidableEq

/-- The `FontFamily` enum of `font.rs` lines 20-35. -/
inductive FontFamily where
  | Serif
  | SansSerif
  | Cursive
  | Fantasy
  | Monospace
  | Named (name : String)
deriving DecidableEq

/-- `impl ToString for FontFamily`, `font.rs` lines 37-48. -/
def FontFamily.to_string : FontFamily → String
  | .Serif => "serif"
  | .SansSerif => "sans-serif"
  | .Cursive => "cursive"
  | .Fantasy => "fantasy"
  | .Monospace => "monospace"
  | .Named name => name

/-- Modelled from the spec: the forward-only stream cursor of `stream.rs`
(§4.1).  `pos` counts the characters already consumed (the character-counted
position used for diagnostics) and `rem` is the remaining text. -/
structure Stream where
  pos : Nat
  rem : List Char
deriving DecidableEq

/-- Modelled from the spec: an XML whitespace character, used by
`skip_spaces`. -/
def isXmlSpace (c : Char) : Bool :=
  c == ' ' || c == '\t' || c == '\n' || c == '\r'

/-- Modelled from the spec: `Stream::skip_spaces` skips the leading run of
whitespace characters, advancing the position by its length. -/
def Stream.skip_spaces (s : Stream) : Stream :=
  ⟨s.pos + (s.rem.takeWhile isXmlSpace).length, s.rem.dropWhile isXmlSpace⟩

/-- Modelled from the spec: `Stream::at_end`, the end-of-input test. -/
def Stream.at_end (s : Stream) : Bool := s.rem.isEmpty

/-- Modelled from the spec: `Stream::curr_byte` peeks the current character,
failing with `UnexpectedEndOfStream` at the end. -/
def Stream.curr_byte (s : Stream) : Except Error Char :=
  match s.rem with
  | [] => .error .UnexpectedEndOfStream
  | c :: _ => .ok c

/-- Modelled from the spec: `Stream::chars().next()`, the non-consuming
one-character lookahead. -/
def Stream.chars_next (s : Stream) : Option Char := s.rem.head?

/-- Modelled from the spec: `Stream::advance` moves the offset forward. -/
def Stream.advance (s : Stream) (n : Nat) : Stream := ⟨s.pos + n, s.rem.drop n⟩

/-- Modelled from the spec: `Stream::calc_char_pos` computes the
character-counted (not byte-counted) position for diagnostics. -/
def Stream.calc_char_pos (s : Stream) : Nat := s.pos

/-- Modelled from the spec: a CSS ident character - letter, digit, hyphen or
underscore. -/
def isIdentChar (c : Char) : Bool :=
  c.isAlpha || c.isDigit || c == '-' || c == '_'

/-- Modelled from the spec: `Stream::parse_ident` lexes a CSS-style
identifier (letters/digits/hyphen/underscore, must not start with a digit),
failing with `InvalidIdent` on violation (including when no character can be
consumed). -/
def Stream.parse_ident (s : Stream) : Except Error (String × Stream) :=
  match s.rem with
  | [] => .error .InvalidIdent
  | c :: _ =>
    if c.isDigit then .error .InvalidIdent
    else
      let run := s.rem.takeWhile isIdentChar
      if run.isEmpty then .error .InvalidIdent
      else .ok (⟨run⟩, s.advance run.length)

/-- Splits a character list at the first occurrence of `q`, returning the
content before it and the rest after it, or `none` when `q` never occurs. -/
def takeUntil (q : Char) : List Char → Option (List Char × List Char)
  | [] => none
  | c :: cs =>
    if c = q then some ([], cs)
    else (takeUntil q cs).map (fun p => (c :: p.1, p.2))

/-- Modelled from the spec: `Stream::parse_quoted_string` lexes a quoted
string delimited by the matching quote character currently under the cursor,
returning the raw interior content unescaped; fails with
`UnexpectedEndOfStream` if there is no closing delimiter. -/
def Stream.parse_quoted_string (s : Stream) : Except Error (String × Stream) :=
  match s.rem with
  | [] => .error .UnexpectedEndOfStream
  | q :: rest =>
    match takeUntil q rest with
    | none => .error .UnexpectedEndOfStream
    | some (content, after) =>
      .ok (⟨content⟩, ⟨s.pos + content.length + 2, after⟩)

/-- The keyword match of `font.rs` lines 77-84: the joined ident string is
compared case-sensitively against the five reserved generic keywords, and
anything else becomes `Named`. -/
def matchJoined (joined : String) : FontFamily :=
  if joined = "serif" then .Serif
  else if joined = "sans-serif" then .SansSerif
  else if joined = "cursive" then .Cursive
  else if joined = "fantasy" then .Fantasy
  else if joined = "monospace" then .Monospace
  else .Named joined

/-- The inner ident-collecting loop of `font.rs` lines 63-72: repeatedly lex
whitespace-separated idents until a comma is seen (via the non-consuming
lookahead) or the input ends.  `fuel` is an upper bound on the number of
iterations; every iteration consumes at least one character, so the fuel
`rem.length + 1` supplied by `Stream.parseFamily` is never exhausted. -/
def identLoop : Nat → Stream → List String → Except Error (List String × Stream)
  | 0, _, _ => .error .UnexpectedEndOfStream
  | fuel + 1, s, idents =>
    match s.chars_next with
    | none => .ok (idents, s)
    | some c =>
      if c = ',' then .ok (idents, s)
      else
        match s.parse_ident with
        | .error e => .error e
        | .ok (name, s') => identLoop fuel s'.skip_spaces (idents ++ [name])

/-- One family of `font.rs` lines 57-86: a quoted string becomes `Named`
verbatim; otherwise idents are collected, joined with single spaces and
matched against the generic keywords. -/
def Stream.parseFamily (s : Stream) : Except Error (FontFamily × Stream) :=
  match s.curr_byte with
  | .error e => .error e
  | .ok ch =>
    if ch = '\'' ∨ ch = '"' then
      match s.parse_quoted_string with
      | .error e => .error e
      | .ok (res, s') => .ok (.Named res, s')
    else
      match identLoop (s.rem.length + 1) s [] with
      | .error e => .error e
      | .ok (idents, s') => .ok (matchJoined (String.intercalate " " idents), s')

/-- The outer `while !self.at_end()` loop of `font.rs` lines 54-97: skip
spaces, parse one family, append it, then consume a comma and continue, or
stop.  When `curr_byte` fails after a family the stream is at its end, so
returning directly is the loop's own exit.  As with `identLoop`, every
recursive call consumes at least one character (the comma), so the fuel
`rem.length + 1` is never exhausted. -/
def ffLoop : Nat → Stream → List FontFamily → Except Error (List FontFamily × Stream)
  | 0, _, _ => .error .UnexpectedEndOfStream
  | fuel + 1, s, families =>
    if s.at_end then .ok (families, s)
    else
      let s₁ := s.skip_spaces
      match s₁.parseFamily with
      | .error e => .error e
      | .ok (family, s₂) =>
        match s₂.curr_byte with
        | .ok b =>
          if b = ',' then ffLoop fuel (s₂.advance 1) (families ++ [family])
          else .ok (families ++ [family], s₂)
        | .error _ => .ok (families ++ [family], s₂)

/-- The post-processing filter predicate of `font.rs` lines 101-104: keep a
`Named` entry only when its string is non-empty; keep every generic
variant. -/
def ffKeep : FontFamily → Bool
  | .Named n => !n.isEmpty
  | _ => true

/-- `Stream::parse_font_families`, `font.rs` lines 51-108: run the family
loop, then drop the empty `Named` entries. -/
def Stream.parse_font_families (s : Stream) : Except Error (List FontFamily × Stream) :=
  match ffLoop (s.rem.length + 1) s [] with
  | .error e => .error e
  | .ok (families, s') => .ok (families.filter ffKeep, s')

/-- The exported entry point `parse_font_families`, `font.rs` lines 8-18:
parse the list, then require that only trailing whitespace remains,
otherwise fail with `UnexpectedData` at the offending character position. -/
def parse_font_families (text : String) : Except Error (List FontFamily) :=
  let s : Stream := ⟨0, text.toList⟩
  match s.parse_font_families with
  | .error e => .error e
  | .ok (font_families, s') =>
    let s'' := s'.skip_spaces
    if s''.at_end then .ok font_families
    else .error (.UnexpectedData s''.calc_char_pos)

/-- `decompress_svgz`, `lib.rs` lines 249-258.  The external `flate2`
gzip decoder (`GzDecoder::new` plus `read_to_end`) is abstracted as the
`inflate` parameter, returning `none` on any decoding failure; the source
maps every such failure to `Error::MalformedGZip`. -/
def decompress_svgz (inflate : List Nat → Option (List Nat)) (data : List Nat) :
    Except Error (List Nat) :=
  match inflate data with
  | some decoded => .ok decoded
  | none => .error .MalformedGZip

/-- `TreeParsing::from_data`, `lib.rs` lines 217-226.  `utf8` abstracts
`std::str::from_utf8` (`none` when the bytes are not valid UTF-8, in which
case the source returns `Error::NotAnUtf8Str`) and `from_str` abstracts
`Self::from_str`.  `data.take 2 = [0x1f, 0x8b]` is
`data.starts_with(&[0x1f, 0x8b])`. -/
def from_data {T : Type} (inflate : List Nat → Option (List Nat))
    (utf8 : List Nat → Option String) (from_str : String → Except Error T)
    (data : List Nat) : Except Error T :=
  if data.take 2 = [0x1f, 0x8b] then
    match decompress_svgz inflate data with
    | .error e => .error e
    | .ok decoded =>
      match utf8 decoded with
      | none => .error .NotAnUtf8Str
      | some text => from_str text
  else
    match utf8 data with
    | none => .error .NotAnUtf8Str
    | some text => from_str text

/-- `String::from_utf8(vec![c])` for a single byte: succeeds exactly when
the byte is valid one-byte UTF-8, i.e. below `0x80`, and yields the
one-character string; `.unwrap()` on the failure case panics. -/
def from_utf8_single (c : Nat) : Option String :=
  if c < 128 then some ⟨[Char.ofNat c]⟩ else none

/-- The `chars.iter().skip(1).map(|c| String::from_utf8(vec![*c]).unwrap())`
conversion in the `InvalidChar` arm of the Display impl: `none` models the
panic of `.unwrap()` on a byte that is not valid one-byte UTF-8. -/
def mapExpectedBytes : List Nat → Option (List String)
  | [] => some []
  | c :: cs =>
    match from_utf8_single c, mapExpectedBytes cs with
    | some s, some rest => some (s :: rest)
    | _, _ => none

/-- `impl std::fmt::Display for Error`, `lib.rs` lines 121-181, as a partial
function: `none` models a panic (indexing `chars[0]` or `strings[0]` /
`strings[1..]` of an empty vector, or the `from_utf8(...).unwrap()` on a
non-ASCII expected byte); `some line` is the rendered message. -/
def Error.display : Error → Option String
  | .NotAnUtf8Str => some "provided data has not an UTF-8 encoding"
  | .MalformedGZip => some "provided data has a malformed GZip content"
  | .ElementsLimitReached => some "the maximum number of SVG elements has been reached"
  | .InvalidSize => some "SVG has an invalid size"
  | .ParsingFailed e => some ("SVG data parsing failed cause " ++ e.msg)
  | .UnexpectedEndOfStream => some "unexpected end of stream"
  | .UnexpectedData pos => some ("unexpected data at position " ++ toString pos)
  | .InvalidValue => some "invalid value"
  | .InvalidIdent => some "invalid ident"
  | .InvalidChar chars pos =>
    match chars with
    | [] => none
    | c0 :: expected =>
      match mapExpectedBytes expected with
      | none => none
      | some list =>
        some ("expected '" ++ String.intercalate "', '" list ++ "' not '" ++
          String.mk [Char.ofNat c0] ++ "' at position " ++ toString pos)
  | .InvalidString strings pos =>
    match strings with
    | [] => none
    | s0 :: expected =>
      some ("expected '" ++ String.intercalate "', '" expected ++ "' not '" ++
        s0 ++ "' at position " ++ toString pos)
  | .InvalidNumber pos => some ("invalid number at position " ++ toString pos)

/-- When every byte of `l` is valid one-byte UTF-8, the expected-byte
conversion of the `InvalidChar` Display arm succeeds. -/
theorem mapExpectedBytes_ascii (l : List Nat) (h : ∀ b ∈ l, b < 128) :
    ∃ ss, mapExpectedBytes l = some ss := by
  induction l with
  | nil => exact ⟨[], rfl⟩
  | cons c cs ih =>
    obtain ⟨ss, hss⟩ := ih (fun b hb => h b (List.mem_cons_of_mem _ hb))
    have hc : c < 128 := h c (List.mem_cons_self _ _)
    refine ⟨⟨[Char.ofNat c]⟩ :: ss, ?_⟩
    simp [mapExpectedBytes, from_utf8_single, hc, hss]

end Usvg

deriving instance DecidableEq for Except

namespace Usvg

/-! ## Supporting lemmas -/

/-- A successful parse always returns the post-processing filter of the raw
family list produced by the parsing loop. -/
theorem parse_font_families_filter_shape (text : String) (fams : List FontFamily)
    (h : parse_font_families text = .ok fams) :
    ∃ l : List FontFamily, fams = l.filter ffKeep := by
  unfold parse_font_families Stream.parse_font_families at h
  dsimp only at h
  rcases hfl : ffLoop (text.toList.length + 1) ⟨0, text.toList⟩ [] with e | ⟨families, s'⟩
  · rw [hfl] at h; exact absurd h (by simp)
  · rw [hfl] at h
    dsimp only at h
    by_cases hend : s'.skip_spaces.at_end
    · rw [if_pos hend] at h
      exact ⟨families, by injection h with h; exact h.symm⟩
    · rw [if_neg hend] at h
      exact absurd h (by simp)

/-- Skipping spaces does nothing when the current character is not
whitespace. -/
theorem skip_spaces_cons_nonspace (p : Nat) (c : Char) (cs : List Char)
    (hc : isXmlSpace c = false) :
    Stream.skip_spaces ⟨p, c :: cs⟩ = ⟨p, c :: cs⟩ := by
  simp [Stream.skip_spaces, List.takeWhile_cons, List.dropWhile_cons, hc]

/-- Skipping spaces at the end of the input does nothing. -/
theorem skip_spaces_nil (p : Nat) : Stream.skip_spaces ⟨p, []⟩ = ⟨p, []⟩ := rfl

/-- Splitting at the first occurrence of `q` finds the marked occurrence
when the prefix is free of `q`. -/
theorem takeUntil_append (q : Char) (l rest : List Char) (h : q ∉ l) :
    takeUntil q (l ++ q :: rest) = some (l, rest) := by
  induction l with
  | nil => simp [takeUntil]
  | cons c cs ih =>
    have hc : ¬(c = q) := fun hcq => h (hcq ▸ List.mem_cons_self _ _)
    have hcs : q ∉ cs := fun hm => h (List.mem_cons_of_mem _ hm)
    rw [List.cons_append, takeUntil, if_neg hc, ih hcs]
    rfl

/-- Lexing stops at the end of a predicate-respecting block: `takeWhile`
returns the block and `dropWhile` returns the rest. -/
theorem takeWhile_word_append (pred : Char → Bool) (w cs : List Char)
    (hall : ∀ x ∈ w, pred x = true)
    (hcs : ∀ x, cs.head? = some x → pred x = false) :
    (w ++ cs).takeWhile pred = w ∧ (w ++ cs).dropWhile pred = cs := by
  induction w with
  | nil =>
    cases cs with
    | nil => simp
    | cons c cs' =>
      have hc := hcs c rfl
      simp [List.takeWhile_cons, List.dropWhile_cons, hc]
  | cons c w' ih =>
    have hc := hall c (List.mem_cons_self _ _)
    obtain ⟨h1, h2⟩ := ih (fun x hx => hall x (List.mem_cons_of_mem _ hx))
    simp [List.takeWhile_cons, List.dropWhile_cons, hc, h1, h2]

/-- Lexing one identifier: a non-empty run of ident characters that does not
start with a digit, followed by a non-ident character (or the end), is
consumed whole. -/
theorem parse_ident_word (p : Nat) (c : Char) (w cs : List Char)
    (hdig : c.isDigit = false)
    (hall : ∀ x ∈ c :: w, isIdentChar x = true)
    (hcs : ∀ x, cs.head? = some x → isIdentChar x = false) :
    Stream.parse_ident ⟨p, (c :: w) ++ cs⟩ =
      .ok (⟨c :: w⟩, ⟨p + (c :: w).length, cs⟩) := by
  obtain ⟨h1, h2⟩ := takeWhile_word_append isIdentChar (c :: w) cs hall hcs
  have hdrop : ((c :: w) ++ cs).drop (c :: w).length = cs := List.drop_left _ _
  unfold Stream.parse_ident
  rw [List.cons_append] at h1 hdrop ⊢
  dsimp only
  simp [hdig, h1, hdrop, Stream.advance]

/-- Skipping a run of `n` spaces advances the position by exactly `n` when
the following character is not whitespace. -/
theorem skip_spaces_replicate (p n : Nat) (cs : List Char)
    (hcs : ∀ x, cs.head? = some x → isXmlSpace x = false) :
    Stream.skip_spaces ⟨p, List.replicate n ' ' ++ cs⟩ = ⟨p + n, cs⟩ := by
  obtain ⟨h1, h2⟩ := takeWhile_word_append isXmlSpace (List.replicate n ' ') cs
    (fun x hx => by rw [List.eq_of_mem_replicate hx]; rfl) hcs
  simp [Stream.skip_spaces, h1, h2, List.length_replicate]

/-- One iteration of the ident-collecting loop: a non-comma ident in front
is lexed, trailing whitespace is skipped, and the loop continues. -/
theorem identLoop_step (fuel p : Nat) (c : Char) (w cs : List Char) (acc : List String)
    (hc : ¬(c = ','))
    (hdig : c.isDigit = false)
    (hall : ∀ x ∈ c :: w, isIdentChar x = true)
    (hcs : ∀ x, cs.head? = some x → isIdentChar x = false) :
    identLoop (fuel + 1) ⟨p, (c :: w) ++ cs⟩ acc =
      identLoop fuel (Stream.skip_spaces ⟨p + (c :: w).length, cs⟩) (acc ++ [⟨c :: w⟩]) := by
  have hpi := parse_ident_word p c w cs hdig hall hcs
  simp only [identLoop, Stream.chars_next]
  rw [List.cons_append] at hpi ⊢
  simp [hc, hpi]

/-- The ident-collecting loop stops at the end of the input. -/
theorem identLoop_end (fuel p : Nat) (acc : List String) :
    identLoop (fuel + 1) ⟨p, []⟩ acc = .ok (acc, ⟨p, []⟩) := by
  simp [identLoop, Stream.chars_next]

/-- The ident loop on "Times", then `a' + 1` spaces, then "New", then
`b' + 1` spaces, then "Roman" collects exactly the three idents. -/
theorem identLoop_TNR (k a' b' p : Nat) :
    identLoop (k + 4)
      ⟨p, ['T','i','m','e','s'] ++ (List.replicate (a' + 1) ' ' ++
        (['N','e','w'] ++ (List.replicate (b' + 1) ' ' ++ ['R','o','m','a','n'])))⟩ [] =
      .ok (["Times", "New", "Roman"], ⟨p + a' + b' + 15, []⟩) := by
  rw [show k + 4 = (k + 3) + 1 from rfl]
  rw [identLoop_step (k + 3) p 'T' ['i','m','e','s'] _ [] (by decide) (by decide)
    (by decide) (fun x hx => by
      rw [List.replicate_succ, List.cons_append, List.head?_cons] at hx
      injection hx with hx; rw [← hx]; rfl)]
  rw [skip_spaces_replicate _ (a' + 1) _ (fun x hx => by
      rw [List.cons_append, List.head?_cons] at hx
      injection hx with hx; rw [← hx]; rfl)]
  rw [show k + 3 = (k + 2) + 1 from rfl]
  rw [identLoop_step (k + 2) _ 'N' ['e','w'] _ _ (by decide) (by decide)
    (by decide) (fun x hx => by
      rw [List.replicate_succ, List.cons_append, List.head?_cons] at hx
      injection hx with hx; rw [← hx]; rfl)]
  rw [skip_spaces_replicate _ (b' + 1) _ (fun x hx => by
      rw [List.head?_cons] at hx
      injection hx with hx; rw [← hx]; rfl)]
  rw [show (['R','o','m','a','n'] : List Char) = ['R','o','m','a','n'] ++ []
    from (List.append_nil _).symm]
  rw [show k + 2 = (k + 1) + 1 from rfl]
  rw [identLoop_step (k + 1) _ 'R' ['o','m','a','n'] [] _ (by decide) (by decide)
    (by decide) (fun x hx => by exact Option.noConfusion hx)]
  rw [skip_spaces_nil]
  rw [identLoop_end k]
  simp only [Except.ok.injEq, Prod.mk.injEq, Stream.mk.injEq]
  refine ⟨by decide, by simp [List.length_cons]; omega, trivial⟩

/-- One unfolding of the family loop. -/
theorem ffLoop_succ (fuel : Nat) (s : Stream) (families : List FontFamily) :
    ffLoop (fuel + 1) s families =
      if s.at_end then .ok (families, s)
      else
        match s.skip_spaces.parseFamily with
        | .error e => .error e
        | .ok (family, s₂) =>
          match s₂.curr_byte with
          | .ok b =>
            if b = ',' then ffLoop fuel (s₂.advance 1) (families ++ [family])
            else .ok (families ++ [family], s₂)
          | .error _ => .ok (families ++ [family], s₂) := rfl

/-- A stream whose remaining text starts with a character is not at its
end. -/
theorem at_end_cons_append (p : Nat) (c : Char) (w cs : List Char) :
    Stream.at_end ⟨p, (c :: w) ++ cs⟩ = false := rfl

/-- A stream with no remaining text is at its end. -/
theorem at_end_nil (p : Nat) : Stream.at_end ⟨p, []⟩ = true := rfl

/-- Peeking a stream whose remaining text starts with a character yields
that character. -/
theorem curr_byte_cons_append (p : Nat) (c : Char) (w cs : List Char) :
    Stream.curr_byte ⟨p, (c :: w) ++ cs⟩ = .ok c := rfl

/-- Peeking at the end of the stream fails. -/
theorem curr_byte_nil (p : Nat) :
    Stream.curr_byte ⟨p, []⟩ = .error .UnexpectedEndOfStream := rfl

/-- Skipping spaces does nothing in front of a non-whitespace word. -/
theorem skip_spaces_word (p : Nat) (c : Char) (w cs : List Char)
    (hc : isXmlSpace c = false) :
    Stream.skip_spaces ⟨p, (c :: w) ++ cs⟩ = ⟨p, (c :: w) ++ cs⟩ := by
  rw [List.cons_append]
  exact skip_spaces_cons_nonspace p c (w ++ cs) hc

/-! ## Claims -/

/-- C1 (counterexample): the input "serif extra" does not fail with
`UnexpectedData` at the offset of "extra" (which is 6); the unquoted branch
absorbs "extra" as a further whitespace-separated ident, so the parse
succeeds with the single family `Named "serif extra"`. -/
theorem c1_counterexample :
    parse_font_families "serif extra" = .ok [.Named "serif extra"] ∧
    parse_font_families "serif extra" ≠ .error (.UnexpectedData 6) := by
  decide

/-- C1 (amended): for the quoted input "'serif' extra", the exported entry
point `parse_font_families` fails with `UnexpectedData` carrying the
character offset of "extra" (namely 8); in general, whenever the family-list
parse succeeds but anything other than trailing whitespace remains, the
exported entry point fails with `UnexpectedData` at the character position
of the offending character. -/
theorem c1_trailing_data :
    parse_font_families "'serif' extra" = .error (.UnexpectedData 8) ∧
    ∀ (text : String) (fams : List FontFamily) (s' : Stream),
      Stream.parse_font_families ⟨0, text.toList⟩ = .ok (fams, s') →
      s'.skip_spaces.at_end = false →
      parse_font_families text = .error (.UnexpectedData s'.skip_spaces.calc_char_pos) := by
  constructor
  · decide
  · intro text fams s' h hne
    unfold parse_font_families
    dsimp only
    rw [h]
    dsimp only
    simp [hne]

/-- C1 (witness): the general trailing-data law applied at the concrete
input "'serif' extra". -/
theorem c1_trailing_data_witness :
    parse_font_families "'serif' extra" = .error (.UnexpectedData 8) :=
  c1_trailing_data.2 "'serif' extra" [.Named "serif"]
    ⟨7, [' ', 'e', 'x', 't', 'r', 'a']⟩ (by decide) (by decide)

/-- C3: generic-keyword matching is case-sensitive and whole-token - each of
the five lowercase reserved keywords parses to its generic variant, while
the capitalized spelling parses to a `Named` family instead. -/
theorem c3_keyword_case_sensitive :
    parse_font_families "serif" = .ok [.Serif] ∧
    parse_font_families "Serif" = .ok [.Named "Serif"] ∧
    parse_font_families "sans-serif" = .ok [.SansSerif] ∧
    parse_font_families "Sans-serif" = .ok [.Named "Sans-serif"] ∧
    parse_font_families "cursive" = .ok [.Cursive] ∧
    parse_font_families "Cursive" = .ok [.Named "Cursive"] ∧
    parse_font_families "fantasy" = .ok [.Fantasy] ∧
    parse_font_families "Fantasy" = .ok [.Named "Fantasy"] ∧
    parse_font_families "monospace" = .ok [.Monospace] ∧
    parse_font_families "Monospace" = .ok [.Named "Monospace"] := by
  decide

/-- C4: a family name quoted by either delimiter - a single or a double
quote - is wrapped verbatim as `Named` and never matched against the
generic keywords, whatever its content: for every delimiter-free `name`,
parsing the name surrounded by matching quotes yields `[Named name]` (or
`[]` when the name is empty, by the post-processing filter); the concrete
input "'Times New Roman', Arial, sans-serif" parses to
`[Named "Times New Roman", Named "Arial", SansSerif]`, and so does its
double-quoted variant. -/
theorem c4_quoted_verbatim :
    (∀ (q : Char) (name : String), q = '\'' ∨ q = '"' → q ∉ name.toList →
      parse_font_families (⟨[q]⟩ ++ name ++ ⟨[q]⟩) =
        .ok (if name = "" then [] else [.Named name])) ∧
    parse_font_families "'Times New Roman', Arial, sans-serif" =
      .ok [.Named "Times New Roman", .Named "Arial", .SansSerif] ∧
    parse_font_families "\"Times New Roman\", Arial, sans-serif" =
      .ok [.Named "Times New Roman", .Named "Arial", .SansSerif] := by
  refine ⟨?_, by decide, by decide⟩
  intro q name hq12 hq
  have hqs : isXmlSpace q = false := by rcases hq12 with rfl | rfl <;> rfl
  have hL : ((⟨[q]⟩ : String) ++ name ++ ⟨[q]⟩).toList = q :: (name.toList ++ [q]) := by
    simp [String.toList, String.data_append]
  have hparse : Stream.parse_font_families ⟨0, q :: (name.toList ++ [q])⟩ =
      .ok ([FontFamily.Named name].filter ffKeep, ⟨name.toList.length + 2, []⟩) := by
    unfold Stream.parse_font_families
    simp only [ffLoop, Stream.at_end, Stream.parseFamily, Stream.curr_byte,
      Stream.parse_quoted_string, List.length_cons, List.isEmpty_cons,
      skip_spaces_cons_nonspace 0 q (name.toList ++ [q]) hqs,
      takeUntil_append q name.toList [] hq, if_pos hq12]
    simp [String.toList]
  unfold parse_font_families
  dsimp only
  rw [hL, hparse]
  dsimp only [Stream.skip_spaces, Stream.at_end, Stream.calc_char_pos]
  by_cases hn : name = ""
  · subst hn
    decide
  · have hne : name.isEmpty = false := by
      rw [Bool.eq_false_iff]
      intro hmm
      exact hn ((String.isEmpty_iff name).1 hmm)
    simp [List.filter, ffKeep, hne, hn]

/-- C4 (witness): the quoted-verbatim law applied to the name "serif" under
each of the two delimiters - the content equals a reserved keyword but
stays `Named` in both cases. -/
theorem c4_quoted_verbatim_witness :
    parse_font_families "'serif'" = .ok [.Named "serif"] ∧
    parse_font_families "\"serif\"" = .ok [.Named "serif"] :=
  ⟨c4_quoted_verbatim.1 '\'' "serif" (Or.inl rfl) (by decide),
   c4_quoted_verbatim.1 '"' "serif" (Or.inr rfl) (by decide)⟩

/-- C6: round-trip law - rendering each of the five generic `FontFamily`
variants with `to_string` and re-parsing the resulting canonical keyword
string yields the one-element list holding the same variant. -/
theorem c6_roundtrip_generics :
    parse_font_families FontFamily.Serif.to_string = .ok [.Serif] ∧
    parse_font_families FontFamily.SansSerif.to_string = .ok [.SansSerif] ∧
    parse_font_families FontFamily.Cursive.to_string = .ok [.Cursive] ∧
    parse_font_families FontFamily.Fantasy.to_string = .ok [.Fantasy] ∧
    parse_font_families FontFamily.Monospace.to_string = .ok [.Monospace] := by
  decide

/-- C7: the unquoted branch joins whitespace-separated idents with exactly
one space each: "Times New Roman" parses to `[Named "Times New Roman"]`,
and the same result is obtained for any positive amounts of whitespace
between the three idents. -/
theorem c7_multiword_join :
    parse_font_families "Times New Roman" = .ok [.Named "Times New Roman"] ∧
    ∀ a b : Nat, 1 ≤ a → 1 ≤ b →
      parse_font_families
        ("Times" ++ ⟨List.replicate a ' '⟩ ++ "New" ++ ⟨List.replicate b ' '⟩ ++ "Roman") =
        .ok [.Named "Times New Roman"] := by
  refine ⟨by decide, ?_⟩
  intro a b ha hb
  obtain ⟨a', rfl⟩ : ∃ n, a = n + 1 := ⟨a - 1, by omega⟩
  obtain ⟨b', rfl⟩ : ∃ n, b = n + 1 := ⟨b - 1, by omega⟩
  have h1 : ("Times" : String).data = ['T','i','m','e','s'] := by decide
  have h2 : ("New" : String).data = ['N','e','w'] := by decide
  have h3 : ("Roman" : String).data = ['R','o','m','a','n'] := by decide
  have hL : ("Times" ++ (⟨List.replicate (a' + 1) ' '⟩ : String) ++ "New" ++
        (⟨List.replicate (b' + 1) ' '⟩ : String) ++ "Roman").toList =
      ['T','i','m','e','s'] ++ (List.replicate (a' + 1) ' ' ++
        (['N','e','w'] ++ (List.replicate (b' + 1) ' ' ++ ['R','o','m','a','n']))) := by
    simp [String.toList, String.data_append, h1, h2, h3]
  have hlen : (['T','i','m','e','s'] ++ (List.replicate (a' + 1) ' ' ++
      (['N','e','w'] ++ (List.replicate (b' + 1) ' ' ++
        ['R','o','m','a','n'])))).length + 1 = (a' + b' + 12) + 4 := by
    simp [List.length_append, List.length_replicate]
    omega
  unfold parse_font_families
  dsimp only
  rw [hL]
  unfold Stream.parse_font_families
  dsimp only
  rw [ffLoop_succ, at_end_cons_append, if_neg (by decide : ¬(false = true))]
  rw [skip_spaces_word 0 'T' ['i','m','e','s'] _ (by decide)]
  simp only [Stream.parseFamily]
  rw [curr_byte_cons_append]
  dsimp only
  rw [if_neg (by decide : ¬('T' = '\'' ∨ 'T' = '"'))]
  rw [hlen]
  rw [identLoop_TNR (a' + b' + 12) a' b' 0]
  dsimp only
  rw [curr_byte_nil]
  dsimp only
  rw [skip_spaces_nil, at_end_nil, if_pos rfl]
  decide

/-- C7 (witness): the whitespace-independence law applied at three spaces
between "Times" and "New" and one space between "New" and "Roman". -/
theorem c7_multiword_join_witness :
    parse_font_families
      ("Times" ++ (⟨List.replicate 3 ' '⟩ : String) ++ "New" ++
        (⟨List.replicate 1 ' '⟩ : String) ++ "Roman") =
      .ok [.Named "Times New Roman"] :=
  c7_multiword_join.2 3 1 (by decide) (by decide)

/-- C8: the empty input parses to `Ok` with the empty list rather than an
error, and stray commas produce no entries and no error: ",," parses to the
empty list and "a," parses to the single family `Named "a"`. -/
theorem c8_empty_and_commas :
    parse_font_families "" = .ok [] ∧
    parse_font_families ",," = .ok [] ∧
    parse_font_families "a," = .ok [.Named "a"] := by
  decide

/-- C2: `from_data` sniffs the two-byte gzip magic `0x1f 0x8b`; on a match
it first inflates (any inflate failure becomes `MalformedGZip`), then
validates the inflated bytes as UTF-8 (`NotAnUtf8Str` on failure) and hands
the decoded text to `from_str`; without the magic it validates the raw bytes
as UTF-8 and hands the text to `from_str` directly. -/
theorem c2_from_data_gzip_sniffing {T : Type}
    (inflate : List Nat → Option (List Nat)) (utf8 : List Nat → Option String)
    (from_str : String → Except Error T) (data : List Nat) :
    (data.take 2 = [0x1f, 0x8b] →
      from_data inflate utf8 from_str data =
        match inflate data with
        | none => .error .MalformedGZip
        | some decoded =>
          match utf8 decoded with
          | none => .error .NotAnUtf8Str
          | some text => from_str text) ∧
    (data.take 2 ≠ [0x1f, 0x8b] →
      from_data inflate utf8 from_str data =
        match utf8 data with
        | none => .error .NotAnUtf8Str
        | some text => from_str text) := by
  constructor
  · intro h
    unfold from_data decompress_svgz
    rw [if_pos h]
    cases inflate data <;> rfl
  · intro h
    unfold from_data
    rw [if_neg h]

/-- C2 (witness): the gzip branch at a concrete failing inflater, and the
raw branch at a concrete non-gzip byte. -/
theorem c2_from_data_witness :
    from_data (T := Unit) (fun _ => none) (fun _ => none) (fun _ => .ok ())
      [0x1f, 0x8b] = .error .MalformedGZip ∧
    from_data (T := Unit) (fun _ => none) (fun _ => some "svg") (fun _ => .ok ())
      [0x20] = .ok () :=
  ⟨(c2_from_data_gzip_sniffing (fun _ => none) (fun _ => none)
      (fun _ => .ok ()) [0x1f, 0x8b]).1 (by decide),
   (c2_from_data_gzip_sniffing (fun _ => none) (fun _ => some "svg")
      (fun _ => .ok ()) [0x20]).2 (by decide)⟩

/-- C9: every inflate failure on the abstracted gzip decoder makes
`decompress_svgz` return exactly `MalformedGZip`, and `MalformedGZip` with a
failed inflate is the only way `decompress_svgz` can fail. -/
theorem c9_malformed_gzip (inflate : List Nat → Option (List Nat)) (data : List Nat) :
    (inflate data = none → decompress_svgz inflate data = .error .MalformedGZip) ∧
    ∀ e, decompress_svgz inflate data = .error e →
      e = .MalformedGZip ∧ inflate data = none := by
  unfold decompress_svgz
  cases h : inflate data with
  | none => exact ⟨fun _ => rfl, fun e he => ⟨by injection he with he; exact he.symm, rfl⟩⟩
  | some d => exact ⟨fun hc => absurd hc (by simp), fun e he => absurd he (by simp)⟩

/-- C9 (witness): a concrete always-failing inflater on a corrupted
gzip-prefixed byte sequence yields `MalformedGZip`. -/
theorem c9_malformed_gzip_witness :
    decompress_svgz (fun _ => none) [0x1f, 0x8b, 0] = .error .MalformedGZip :=
  (c9_malformed_gzip (fun _ => none) [0x1f, 0x8b, 0]).1 rfl

/-- C5: every `Named` family in a successfully returned list carries a
non-empty string; the post-processing filter drops every empty `Named` entry
and never drops a generic variant. -/
theorem c5_named_nonempty :
    (∀ (text : String) (fams : List FontFamily),
      parse_font_families text = .ok fams →
      ∀ n : String, FontFamily.Named n ∈ fams → n ≠ "") ∧
    (∀ l : List FontFamily, FontFamily.Named "" ∉ l.filter ffKeep) ∧
    (∀ (l : List FontFamily) (f : FontFamily), f ∈ l → (∀ n, f ≠ .Named n) →
      f ∈ l.filter ffKeep) := by
  have hnamed : ∀ (l : List FontFamily) (n : String),
      FontFamily.Named n ∈ l.filter ffKeep → n ≠ "" := by
    intro l n hmem hn
    have hkeep := (List.mem_filter.1 hmem).2
    rw [hn] at hkeep
    exact absurd hkeep (by decide)
  refine ⟨?_, ?_, ?_⟩
  · intro text fams h n hmem
    obtain ⟨l, rfl⟩ := parse_font_families_filter_shape text fams h
    exact hnamed l n hmem
  · intro l hmem
    exact hnamed l "" hmem rfl
  · intro l f hf hnotnamed
    refine List.mem_filter.2 ⟨hf, ?_⟩
    cases f with
    | Serif => rfl
    | SansSerif => rfl
    | Cursive => rfl
    | Fantasy => rfl
    | Monospace => rfl
    | Named n => exact absurd rfl (hnotnamed n)

/-- C5 (witness): the invariant applied to the parse of "a", and the
never-drops-a-generic law applied to a concrete list holding a generic
variant next to an empty `Named` entry. -/
theorem c5_named_nonempty_witness :
    ("a" : String) ≠ "" ∧
    FontFamily.Serif ∈ [FontFamily.Serif, FontFamily.Named ""].filter ffKeep :=
  ⟨c5_named_nonempty.1 "a" [.Named "a"] (by decide) "a" (by decide),
   c5_named_nonempty.2.2 [.Serif, .Named ""] .Serif (by decide)
     (fun n h => FontFamily.noConfusion h)⟩

/-- C10 (counterexample): length at least one does not suffice for the
`InvalidChar` Display arm to be total - the expected byte `255` is not valid
one-byte UTF-8, so `String::from_utf8(vec![255]).unwrap()` panics
(modelled as `none`) even though the vector `[65, 255]` is non-empty. -/
theorem c10_counterexample :
    1 ≤ ([65, 255] : List Nat).length ∧
    Error.display (.InvalidChar [65, 255] 0) = none := by
  decide

/-- C10 (amended): formatting `InvalidChar` or `InvalidString` built from an
empty vector panics (indexing `chars[0]`, resp. `strings[0]`/`strings[1..]`);
formatting succeeds when the vector holds the actual value followed by
expected values - length at least one for `InvalidString`, and length at
least one plus every expected byte below `0x80` (so that the
`from_utf8(...).unwrap()` conversion cannot panic) for `InvalidChar`. -/
theorem c10_display_totality :
    (∀ pos, Error.display (.InvalidChar [] pos) = none) ∧
    (∀ pos, Error.display (.InvalidString [] pos) = none) ∧
    (∀ (c0 : Nat) (expected : List Nat) (pos : Nat), (∀ b ∈ expected, b < 128) →
      (Error.display (.InvalidChar (c0 :: expected) pos)).isSome = true) ∧
    (∀ (s0 : String) (expected : List String) (pos : Nat),
      (Error.display (.InvalidString (s0 :: expected) pos)).isSome = true) := by
  refine ⟨fun pos => rfl, fun pos => rfl, ?_, fun s0 expected pos => rfl⟩
  intro c0 expected pos h
  obtain ⟨ss, hss⟩ := mapExpectedBytes_ascii expected h
  simp [Error.display, hss]

/-- C10 (witness): the totality law applied to a concrete `InvalidChar`
value with an ASCII expected byte. -/
theorem c10_display_totality_witness :
    (Error.display (.InvalidChar [65, 66] 7)).isSome = true :=
  c10_display_totality.2.2.1 65 [66] 7 (by decide)

end Usvg
